import Mathlib

/-!
Verification of the event-management backend core: the slug generator,
date/time normalizers and the Event save hook (src/database/event.model.ts),
the Booking referential-integrity hook and the similar-events query, and the
GET-event-by-slug handler. JavaScript strings are modelled as Lean `String`
(lists of characters), thrown exceptions as `Except`, and the document store
as an explicit list of records.
-/

namespace NextEvents

/-- Character class of the JavaScript regex `\s` (also used by `String.prototype.trim`):
space, tab, line/page breaks, and the Unicode space separators. -/
def isJsWs (c : Char) : Bool :=
  c == ' ' || c == '\t' || c == '\n' || c == '\r' ||
  c.toNat == 11 || c.toNat == 12 ||
  c.toNat == 0xa0 || c.toNat == 0x1680 ||
  (0x2000 ≤ c.toNat && c.toNat ≤ 0x200a) ||
  c.toNat == 0x2028 || c.toNat == 0x2029 || c.toNat == 0x202f ||
  c.toNat == 0x205f || c.toNat == 0x3000 || c.toNat == 0xfeff

/-- Model of JavaScript `String.prototype.trim`: drop leading and trailing whitespace. -/
def jsTrim (l : List Char) : List Char :=
  ((l.dropWhile isJsWs).reverse.dropWhile isJsWs).reverse

/-- `a-z`. -/
def isLowerAlpha (c : Char) : Bool := 97 ≤ c.toNat && c.toNat ≤ 122

/-- `0-9`. -/
def isDigitCh (c : Char) : Bool := 48 ≤ c.toNat && c.toNat ≤ 57

/-- Is the character a hyphen (the class of the regex `-+`)? -/
def isHyphen (c : Char) : Bool := c == '-'

/-- The character class `[a-z0-9\s-]` kept by `generateSlug`'s first `replace`
(everything outside it is removed). -/
def keepChar (c : Char) : Bool :=
  isLowerAlpha c || isDigitCh c || isJsWs c || isHyphen c

/-- The output character class of the slug generator: `[a-z0-9-]`. -/
def classChar (c : Char) : Bool :=
  isLowerAlpha c || isDigitCh c || isHyphen c

/-- Whitespace or hyphen. -/
def isWsHy (c : Char) : Bool := isJsWs c || isHyphen c

/-- Turn a whitespace character into a hyphen, leave anything else alone. -/
def wsToHyphen (c : Char) : Char := if isJsWs c then '-' else c

/-- Replace every maximal run of characters satisfying `p` by the single
character `r` (a global regex replace of one-or-more of a character class). -/
def squashRuns (p : Char → Bool) (r : Char) : List Char → List Char
  | [] => []
  | c :: cs =>
    match cs with
    | [] => [if p c then r else c]
    | d :: _ =>
      if p c && p d then squashRuns p r cs
      else (if p c then r else c) :: squashRuns p r cs

/-- Remove one leading hyphen (the `^-` alternative of the edge regex). -/
def stripLeadHy (l : List Char) : List Char :=
  match l with
  | c :: t => if c == '-' then t else l
  | [] => []

/-- Remove one trailing hyphen (the `-$` alternative of the edge regex). -/
def stripTrailHy (l : List Char) : List Char :=
  match l.reverse with
  | c :: t => if c == '-' then t.reverse else l
  | [] => l

/-- Model of replacing regex `^-|-$` (global) with `""`: remove one leading and
one trailing hyphen. -/
def stripEdgeHyphens (l : List Char) : List Char :=
  stripTrailHy (stripLeadHy l)

/-- `generateSlug` from src/database/event.model.ts: lowercase, trim, remove all
characters outside `[a-z0-9\s-]`, replace whitespace runs with hyphens
(regex `\s+` to `"-"`), collapse hyphen runs (regex `-+` to `"-"`), strip one
leading/trailing hyphen (regex `^-|-$` to `""`). -/
def generateSlug (title : String) : String :=
  let l := title.data.map Char.toLower
  let l := jsTrim l
  let l := l.filter keepChar
  let l := squashRuns isJsWs '-' l
  let l := squashRuns isHyphen '-' l
  String.mk (stripEdgeHyphens l)

/-- Spec-side slug definition, following the specification's wording with a
different computational structure: lowercase, trim, remove characters outside
the class, turn each whitespace character into a hyphen (whitespace runs
thereby become hyphen runs), collapse hyphen runs to one, strip the
leading/trailing hyphen. -/
def slugSpecSteps (title : String) : String :=
  let l := title.data.map Char.toLower
  let l := jsTrim l
  let l := l.filter keepChar
  let l := l.map wsToHyphen
  let l := squashRuns isHyphen '-' l
  String.mk (stripEdgeHyphens l)

/-- No two adjacent characters both satisfy `p`. -/
def noAdjB (p : Char → Bool) : List Char → Bool
  | a :: b :: t => !(p a && p b) && noAdjB p (b :: t)
  | _ => true

/-- Does the list start with a hyphen? -/
def headIsHy : List Char → Bool
  | [] => false
  | c :: _ => c == '-'

/-- Does the list end with a hyphen? -/
def lastIsHy (l : List Char) : Bool := headIsHy l.reverse

/-- A canonical slug: only characters in `[a-z0-9-]`, no two adjacent hyphens,
no leading hyphen, no trailing hyphen. -/
def isCanonSlug (s : String) : Bool :=
  s.data.all classChar && noAdjB isHyphen s.data &&
  !(headIsHy s.data) && !(lastIsHy s.data)

/-! ## Time normalizer -/

/-- Model of JavaScript `parseInt` at the call sites in `normalizeTime`:
parse a leading run of decimal digits, `none` (NaN) when there is none. -/
def jsParseInt (l : List Char) : Option Nat :=
  let ds := l.takeWhile isDigitCh
  if ds.isEmpty then none
  else some (ds.foldl (fun a c => 10 * a + (c.toNat - 48)) 0)

/-- `parseInt` applied to a possibly-`undefined` value (`parseInt(undefined)` is NaN). -/
def jsParseIntOpt : Option (List Char) → Option Nat
  | none => none
  | some l => jsParseInt l

/-- JavaScript `<` on numbers where either side may be NaN (`none`):
any comparison with NaN is false. -/
def nanLt : Option Nat → Option Nat → Bool
  | some a, some b => a < b
  | _, _ => false

/-- Interpolating a possibly-`undefined` value into a template literal:
`undefined` prints as `"undefined"`. -/
def jsInterp : Option (List Char) → List Char
  | none => "undefined".data
  | some l => l

/-- `padStart(2, "0")`. -/
def padStart2 (l : List Char) : List Char :=
  if l.length ≥ 2 then l else List.replicate (2 - l.length) '0' ++ l

/-- Matching of `/^(\d{1,2}:\d{2})\s*(AM|PM)?$/i` against a character list.
On success returns (capture group 1, capture group 2): group 1 is the
`H:MM`/`HH:MM` part, group 2 the `AM`/`PM` suffix as written (or `none`).
The regex has exactly these two capture groups. -/
def timeRegexMatch (l : List Char) : Option (List Char × Option (List Char)) :=
  let hs := l.takeWhile isDigitCh
  let r1 := l.dropWhile isDigitCh
  if hs.length < 1 || hs.length > 2 then none
  else
    match r1 with
    | ':' :: r2 =>
      let ms := r2.take 2
      let r3 := r2.drop 2
      if ms.length == 2 && ms.all isDigitCh then
        let r4 := r3.dropWhile isJsWs
        match r4 with
        | [] => some (hs ++ ':' :: ms, none)
        | [a, m] =>
          if (a == 'A' || a == 'a' || a == 'P' || a == 'p') && (m == 'M' || m == 'm')
          then some (hs ++ ':' :: ms, some [a, m])
          else none
        | _ => none
      else none
    | _ => none

/-- Uppercasing of the period string (`match[4]?.toUpperCase()`). -/
def jsToUpper (l : List Char) : List Char := l.map Char.toUpper

/-- `normalizeTime` from src/database/event.model.ts, translated literally.
The regex has two capture groups, so `match[1]` is the whole `H:MM` part,
`match[2]` is the AM/PM suffix and `match[4]` is `undefined`; the code
nevertheless reads `match[1]` into `hours` (via `parseInt`, which stops at
the colon), `match[2]` into `minutes` and `match[4]` into `period`. -/
def normalizeTime (timeStr : String) : Except String String :=
  match timeRegexMatch (jsTrim timeStr.data) with
  | none => .error "Invalid time format, expected HH:MM with optional AM/PM"
  | some (g1, g2) =>
    let hours0 : Option Nat := jsParseInt g1
    let minutes : Option (List Char) := g2
    let period : Option (List Char) := none
    let hours : Option Nat :=
      match period with
      | none => hours0
      | some p =>
        let pU := jsToUpper p
        let h1 := if pU == "PM".data && hours0 != some 12
          then hours0.map (· + 12) else hours0
        if pU == "AM".data && h1 == some 12 then some 0 else h1
    if nanLt hours (some 0) || nanLt (some 23) hours ||
       nanLt (jsParseIntOpt minutes) (some 0) || nanLt (some 59) (jsParseIntOpt minutes)
    then .error "Time must be between 00:00 and 23:59"
    else .ok (String.mk (padStart2 (Nat.toDigits 10 (hours.getD 0)) ++ ':' :: jsInterp minutes))

/-! ## Date normalizer -/

/-- A calendar date as parsed by the date parser (proleptic Gregorian, UTC). -/
structure YMD where
  year : Nat
  month : Nat
  day : Nat
deriving DecidableEq, Repr

/-- Days in a month, with Gregorian leap years. -/
def daysInMonth (y m : Nat) : Nat :=
  if m == 2 then
    if y % 4 == 0 && (y % 100 != 0 || y % 400 == 0) then 29 else 28
  else if m == 4 || m == 6 || m == 9 || m == 11 then 30
  else 31

/-- Read exactly `n` decimal digits from the front of `l`. -/
def takeDigits (n : Nat) (l : List Char) : Option (Nat × List Char) :=
  let ds := l.take n
  if ds.length == n && ds.all isDigitCh then
    some (ds.foldl (fun a c => 10 * a + (c.toNat - 48)) 0, l.drop n)
  else none

/-- Strip the exact character sequence `pre` from the front of `l`. -/
def dropExact : List Char → List Char → Option (List Char)
  | [], l => some l
  | _ :: _, [] => none
  | p :: ps, c :: cs => if p == c then dropExact ps cs else none

/-- Parse the `hh:mm:ss` part of an ISO date-time, optionally followed by
fractional seconds and a `Z` offset; the instant must stay within the day. -/
def parseIsoTime (l : List Char) : Bool :=
  match takeDigits 2 l with
  | none => false
  | some (hh, r1) =>
    match r1 with
    | ':' :: r2 =>
      match takeDigits 2 r2 with
      | none => false
      | some (mm, r3) =>
        match r3 with
        | ':' :: r4 =>
          match takeDigits 2 r4 with
          | none => false
          | some (ss, r5) =>
            let r6 := match r5 with
              | '.' :: r => some (r.drop ((r.takeWhile isDigitCh).length))
              | r => some r
            let ok := hh ≤ 23 && mm ≤ 59 && ss ≤ 59
            match r6 with
            | some [] => ok
            | some ['Z'] => ok
            | _ => false
        | _ => false
    | _ => false

/-- Parse an ISO `YYYY-MM-DD`, optionally followed by `Thh:mm:ss[.sss][Z]`. -/
def parseIsoDate (l : List Char) : Option YMD :=
  match takeDigits 4 l with
  | none => none
  | some (y, r1) =>
    match r1 with
    | '-' :: r2 =>
      match takeDigits 2 r2 with
      | none => none
      | some (m, r3) =>
        match r3 with
        | '-' :: r4 =>
          match takeDigits 2 r4 with
          | none => none
          | some (d, r5) =>
            let okDate := 1 ≤ m && m ≤ 12 && 1 ≤ d && d ≤ daysInMonth y m
            match r5 with
            | [] => if okDate then some ⟨y, m, d⟩ else none
            | 'T' :: r6 => if okDate && parseIsoTime r6 then some ⟨y, m, d⟩ else none
            | _ => none
        | _ => none
    | _ => none

/-- The twelve English month names with their numbers. -/
def monthNames : List (String × Nat) :=
  [("January", 1), ("February", 2), ("March", 3), ("April", 4),
   ("May", 5), ("June", 6), ("July", 7), ("August", 8),
   ("September", 9), ("October", 10), ("November", 11), ("December", 12)]

/-- Find the month whose name starts the character list. -/
def findMonth : List (String × Nat) → List Char → Option (Nat × List Char)
  | [], _ => none
  | (n, m) :: rest, l =>
    match dropExact n.data l with
    | some r => some (m, r)
    | none => findMonth rest l

/-- Parse a long-form date `MonthName D, YYYY` (e.g. `March 5, 2024`),
read as local midnight, which in a UTC environment is UTC midnight. -/
def parseLongDate (l : List Char) : Option YMD :=
  match findMonth monthNames l with
  | none => none
  | some (m, r1) =>
    match r1 with
    | ' ' :: r2 =>
      let ds := r2.takeWhile isDigitCh
      let r3 := r2.dropWhile isDigitCh
      if 1 ≤ ds.length && ds.length ≤ 2 then
        let d := ds.foldl (fun a c => 10 * a + (c.toNat - 48)) 0
        match r3 with
        | ',' :: ' ' :: r4 =>
          match takeDigits 4 r4 with
          | some (y, []) =>
            if 1 ≤ d && d ≤ daysInMonth y m then some ⟨y, m, d⟩ else none
          | _ => none
        | _ => none
      else none
    | _ => none

/-- Models the JavaScript `new Date(string)` parser, a runtime builtin used by
`normalizeDate`, for the formats the specification exercises, assuming a UTC
environment: ISO `YYYY-MM-DD` (parsed as UTC midnight), ISO date-times with an
optional `Z` offset, and long-form `MonthName D, YYYY` dates (parsed as local
midnight). Returns the UTC calendar date of the parsed instant, `none` when
the string is unparseable (an Invalid Date, i.e. `getTime()` is NaN). -/
def jsDateParse (s : String) : Option YMD :=
  match parseIsoDate s.data with
  | some d => some d
  | none => parseLongDate s.data

/-- Zero-pad a number to `n` digits. -/
def padNum (n v : Nat) : List Char :=
  let ds := Nat.toDigits 10 v
  List.replicate (n - ds.length) '0' ++ ds

/-- The date portion of `toISOString()`: what `date.toISOString().split("T")[0]`
returns for a parsed instant whose UTC calendar date is `d`. -/
def isoDateString (d : YMD) : String :=
  String.mk (padNum 4 d.year ++ '-' :: padNum 2 d.month ++ '-' :: padNum 2 d.day)

/-- `normalizeDate` from src/database/event.model.ts: parse with `new Date`,
throw `"Invalid date format"` on an Invalid Date, otherwise return the date
part of the UTC ISO representation. -/
def normalizeDate (dateStr : String) : Except String String :=
  match jsDateParse dateStr with
  | none => .error "Invalid date format"
  | some d => .ok (isoDateString d)

/-! ## Event schema validation and save hook -/

/-- An Event document as described by `EventSchema`. -/
structure EventDoc where
  title : String
  slug : String
  description : String
  overview : String
  image : String
  venue : String
  location : String
  date : String
  time : String
  mode : String
  audience : String
  agenda : List String
  organizer : String
  tags : List String
deriving DecidableEq, Repr

/-- A required string field (with `trim: true` setter) fails `required`
exactly when it is empty after trimming. -/
def requiredStr (s : String) : Bool := !(jsTrim s.data).isEmpty

/-- Field-level validation of `EventSchema`, returning the list of violated
rules' messages (all of them, not just the first). The `slug` field carries
no validator at all. -/
def validateEvent (e : EventDoc) : List String :=
  (if requiredStr e.title then [] else ["Title is required"]) ++
  (if e.title.length ≤ 100 then [] else ["Title must be less than 100 characters"]) ++
  (if requiredStr e.description then [] else ["Description is required"]) ++
  (if e.description.length ≤ 1000 then [] else ["Description must be less than 1000 characters"]) ++
  (if requiredStr e.overview then [] else ["Overview is required"]) ++
  (if e.overview.length ≤ 500 then [] else ["Overview must be less than 500 characters"]) ++
  (if requiredStr e.image then [] else ["Image URL is required"]) ++
  (if requiredStr e.venue then [] else ["Venue is required"]) ++
  (if requiredStr e.location then [] else ["Location is required"]) ++
  (if requiredStr e.date then [] else ["Date is required"]) ++
  (if requiredStr e.time then [] else ["Time is required"]) ++
  (if requiredStr e.mode then [] else ["Mode is required"]) ++
  (if e.mode == "online" || e.mode == "offline" || e.mode == "hybrid" then []
   else ["Mode must be either online, offline, or hybrid"]) ++
  (if requiredStr e.audience then [] else ["Audience is required"]) ++
  (if e.agenda.length > 0 then [] else ["Agenda must have at least one item"]) ++
  (if requiredStr e.organizer then [] else ["Organizer is required"]) ++
  (if e.tags.length > 0 then [] else ["There must be at least one tag"])

/-- The `pre("save")` hook of `EventSchema`: regenerate the slug when the title
is modified or the document is new, re-normalize date and time when modified.
Normalization errors abort the save. -/
def eventPreSave (isNew modTitle modDate modTime : Bool) (e : EventDoc) :
    Except String EventDoc := do
  let e := if modTitle || isNew then { e with slug := generateSlug e.title } else e
  let e ← if modDate then do
      let d ← normalizeDate e.date
      pure { e with date := d }
    else pure e
  let e ← if modTime then do
      let t ← normalizeTime e.time
      pure { e with time := t }
    else pure e
  pure e

/-- A save rejected by validation, by a hook error, or accepted. -/
inductive SaveResult where
  | invalid (msgs : List String)
  | hookError (msg : String)
  | saved (e : EventDoc)
deriving DecidableEq, Repr

/-- Saving a new Event document: Mongoose runs schema validation first, then
the `pre("save")` hook (on a new document every set path is modified), then
persists the hook's output. -/
def saveNewEvent (e : EventDoc) : SaveResult :=
  match validateEvent e with
  | [] =>
    match eventPreSave true true true true e with
    | .error m => .hookError m
    | .ok e2 => .saved e2
  | msgs => .invalid msgs

/-! ## Booking integrity hook -/

/-- Outcome of `Event.findById(booking.eventId).select("_id")`: an event was
found, none was found, or the lookup threw (malformed ObjectId cast or
storage failure). -/
inductive LookupResult where
  | found
  | notFound
  | threw
deriving DecidableEq, Repr

/-- A JavaScript `Error` with its `name` and `message`. -/
structure JsError where
  name : String
  message : String
deriving DecidableEq, Repr

/-- Message of the error raised when the referenced event does not exist:
names the offending identifier. -/
def eventMissingMsg (eventId : String) : String :=
  "Event with ID " ++ eventId ++ " does not exist"

/-- Message of the error raised when the lookup itself throws. -/
def lookupFailedMsg : String := "Invalid event ID format or database error"

/-- The `pre("save")` hook of `BookingSchema`: when `eventId` is new or
modified, look it up; pass a `ValidationError` to `next` when the event is
absent or the lookup throws, otherwise continue. When `eventId` is not
modified, the lookup function is never consulted. -/
def bookingPreSave (lookup : String → LookupResult) (isModifiedEventId : Bool)
    (eventId : String) : Except JsError Unit :=
  if isModifiedEventId then
    match lookup eventId with
    | .found => .ok ()
    | .notFound => .error ⟨"ValidationError", eventMissingMsg eventId⟩
    | .threw => .error ⟨"ValidationError", lookupFailedMsg⟩
  else .ok ()

/-! ## Query helpers and the GET handler -/

/-- A stored Event record, with the fields the queries touch. -/
structure StoredEvent where
  id : Nat
  slug : String
  tags : List String
deriving DecidableEq, Repr

/-- `Event.findOne({ slug })`: first stored event with that exact slug. -/
def mongoFindOneBySlug (events : List StoredEvent) (slug : String) :
    Option StoredEvent :=
  events.find? (fun e => e.slug == slug)

/-- Mongo `tags: { $in: list }` on an array field: some element of the
document's `tags` occurs in `list`. -/
def tagsMatchIn (docTags queryTags : List String) : Bool :=
  docTags.any (fun t => queryTags.contains t)

/-- The filter of the similar-events `Event.find`: `_id` different from the
source event's and at least one shared tag. -/
def similarQuery (events : List StoredEvent) (src : StoredEvent) :
    List StoredEvent :=
  events.filter (fun x => x.id != src.id && tagsMatchIn x.tags src.tags)

/-- State of the storage collaborator for the read operations: whether
`connectDB` succeeds, whether each query call succeeds, and the stored
events. -/
structure Db where
  connectOk : Bool
  findOneOk : Bool
  findOk : Bool
  events : List StoredEvent
deriving Repr

/-- The `try` body of `getSimilarEventsBySlug`: connect, `findOne` the source
event, then `find` the events sharing a tag. When `findOne` returns `null`,
reading `event._id` throws a `TypeError`. -/
def getSimilarBody (db : Db) (slug : String) : Except String (List StoredEvent) :=
  if !db.connectOk then .error "connect failed"
  else if !db.findOneOk then .error "storage failure"
  else
    match mongoFindOneBySlug db.events slug with
    | none => .error "TypeError: Cannot read properties of null"
    | some src =>
      if !db.findOk then .error "storage failure"
      else .ok (similarQuery db.events src)

/-- `getSimilarEventsBySlug` from the server action: the body wrapped in a
`catch` that turns every failure into the empty list. -/
def getSimilarEventsBySlug (db : Db) (slug : String) : List StoredEvent :=
  match getSimilarBody db slug with
  | .ok l => l
  | .error _ => []

/-- An HTTP response of the GET handler: status and `message` field. -/
structure Response where
  status : Nat
  message : String
deriving DecidableEq, Repr

/-- Does `hay` contain `needle` as a contiguous substring
(JavaScript `String.prototype.includes`)? -/
def startsLike : List Char → List Char → Bool
  | [], _ => true
  | _ :: _, [] => false
  | a :: as, b :: bs => a == b && startsLike as bs

/-- Substring containment used by the handler's `e.message.includes(...)`. -/
def hasSub (needle : List Char) : List Char → Bool
  | [] => needle.isEmpty
  | c :: t => startsLike needle (c :: t) || hasSub needle t

/-- The `catch` branch of the GET handler: a connection-configuration error
(message mentioning `MONGODB_URI`) gets a distinguished 500 message. -/
def getCatch (msg : String) : Response :=
  if hasSub "MONGODB_URI".data msg.data then ⟨500, "Database connection error"⟩
  else ⟨500, "Event fetching failed"⟩

/-- Failures the GET handler's `try` body can hit: `connectDB` may throw (with
the thrown message) and `findOne` may throw. -/
structure ApiDb where
  connectError : Option String
  findError : Option String
  events : List StoredEvent
deriving Repr

/-- The GET /api/events/[slug] handler: connect, reject a missing or blank
slug with 400, look up by the trimmed lowercased slug, 404 when absent, 200
when found; thrown errors are mapped by the catch branch. -/
def getEventBySlug (db : ApiDb) (slug : Option String) : Response :=
  match db.connectError with
  | some m => getCatch m
  | none =>
    match slug with
    | none => ⟨400, "Invalid or missing slug parameter"⟩
    | some s =>
      if (jsTrim s.data).isEmpty then ⟨400, "Invalid or missing slug parameter"⟩
      else
        let sanitized := String.mk ((jsTrim s.data).map Char.toLower)
        match db.findError with
        | some m => getCatch m
        | none =>
          match mongoFindOneBySlug db.events sanitized with
          | none => ⟨404, "Event not found"⟩
          | some _ => ⟨200, "Event fetched successfully"⟩

/-- The slug of a successful save, `none` for a rejected one. -/
def saveResultSlug : SaveResult → Option String
  | .saved e => some e.slug
  | _ => none

/-- A fully valid new Event document with the specification's example title. -/
def helloEventDoc : EventDoc :=
  { title := "Hello, World! 2024", slug := "", description := "An event",
    overview := "Overview", image := "https://example.com/img.png",
    venue := "Hall", location := "Paris", date := "2024-03-05",
    time := "10:30", mode := "online", audience := "Everyone",
    agenda := ["Intro"], organizer := "Org", tags := ["tech"] }

/-- A new Event document whose title has no alphanumeric characters at all. -/
def bangEventDoc : EventDoc :=
  { title := "!!!", slug := "", description := "An event",
    overview := "Overview", image := "https://example.com/img.png",
    venue := "Hall", location := "Paris", date := "2024-03-05",
    time := "10:30", mode := "online", audience := "Everyone",
    agenda := ["Intro"], organizer := "Org", tags := ["tech"] }

/-! ## Lemmas: the `squashRuns` combinator -/

theorem squashRuns_nil (p : Char → Bool) (r : Char) : squashRuns p r [] = [] := rfl

theorem squashRuns_single (p : Char → Bool) (r c : Char) :
    squashRuns p r [c] = [if p c then r else c] := rfl

theorem squashRuns_cons2 (p : Char → Bool) (r c d : Char) (t : List Char) :
    squashRuns p r (c :: d :: t) =
      if p c && p d then squashRuns p r (d :: t)
      else (if p c then r else c) :: squashRuns p r (d :: t) := rfl

theorem squash_head (p : Char → Bool) (r : Char) :
    ∀ (d : Char) (t : List Char),
      ∃ rest, squashRuns p r (d :: t) = (if p d then r else d) :: rest := by
  intro d t
  induction t generalizing d with
  | nil => exact ⟨[], rfl⟩
  | cons u t' ih =>
    rw [squashRuns_cons2]
    by_cases hd : p d = true
    · by_cases hu : p u = true
      · obtain ⟨rest, hr⟩ := ih u
        rw [hu] at hr
        simp only [if_true] at hr
        exact ⟨rest, by simp [hd, hu, hr]⟩
      · exact ⟨squashRuns p r (u :: t'), by simp [hd, hu]⟩
    · exact ⟨squashRuns p r (u :: t'), by simp [hd]⟩

theorem squash_mem {p : Char → Bool} {r c : Char} :
    ∀ {l : List Char}, c ∈ squashRuns p r l → c = r ∨ (c ∈ l ∧ p c = false) := by
  intro l
  induction l with
  | nil => intro h; simp [squashRuns_nil] at h
  | cons d t ih =>
    cases t with
    | nil =>
      rw [squashRuns_single]
      intro h
      simp only [List.mem_singleton] at h
      by_cases hd : p d = true
      · left; simpa [hd] using h
      · right
        rw [if_neg hd] at h
        have hd' : p d = false := by simpa using hd
        exact ⟨by simp [h], h ▸ hd'⟩
    | cons u t' =>
      rw [squashRuns_cons2]
      by_cases hcond : (p d && p u) = true
      · rw [if_pos hcond]
        intro h
        rcases ih h with h1 | ⟨h2, h3⟩
        · exact Or.inl h1
        · exact Or.inr ⟨List.mem_cons_of_mem d h2, h3⟩
      · rw [if_neg hcond]
        intro h
        rcases List.mem_cons.mp h with h1 | h1
        · by_cases hd : p d = true
          · left; simpa [hd] using h1
          · right
            rw [if_neg hd] at h1
            have hd' : p d = false := by simpa using hd
            exact ⟨by simp [h1], h1 ▸ hd'⟩
        · rcases ih h1 with h2 | ⟨h3, h4⟩
          · exact Or.inl h2
          · exact Or.inr ⟨List.mem_cons_of_mem d h3, h4⟩

theorem noAdjB_nil (p : Char → Bool) : noAdjB p [] = true := rfl

theorem noAdjB_single (p : Char → Bool) (c : Char) : noAdjB p [c] = true := rfl

theorem noAdjB_cons2 (p : Char → Bool) (a b : Char) (t : List Char) :
    noAdjB p (a :: b :: t) = (!(p a && p b) && noAdjB p (b :: t)) := rfl

theorem noAdjB_of_cons {p : Char → Bool} {c : Char} {t : List Char}
    (h : noAdjB p (c :: t) = true) : noAdjB p t = true := by
  cases t with
  | nil => rfl
  | cons u t' =>
    rw [noAdjB_cons2, Bool.and_eq_true] at h
    exact h.2

/-- The character emitted for a run position keeps the predicate value,
provided the replacement character itself satisfies it. -/
theorem p_ite {p : Char → Bool} {r : Char} (hr : p r = true) (c : Char) :
    p (if p c then r else c) = p c := by
  by_cases hc : p c = true
  · simp [hc, hr]
  · simp [hc]

theorem squash_noAdj (p : Char → Bool) (r : Char) (hr : p r = true) :
    ∀ l : List Char, noAdjB p (squashRuns p r l) = true := by
  intro l
  induction l with
  | nil => rfl
  | cons c t ih =>
    cases t with
    | nil => rw [squashRuns_single]; exact noAdjB_single p _
    | cons d t' =>
      rw [squashRuns_cons2]
      by_cases hcond : (p c && p d) = true
      · rw [if_pos hcond]; exact ih
      · rw [if_neg hcond]
        obtain ⟨rest, hrest⟩ := squash_head p r d t'
        rw [hrest]
        rw [hrest] at ih
        rw [noAdjB_cons2, Bool.and_eq_true]
        refine ⟨?_, ih⟩
        rw [p_ite hr c, p_ite hr d]
        have hfalse : (p c && p d) = false := by simpa using hcond
        simp [hfalse]

theorem noAdjB_iff_chain (p : Char → Bool) :
    ∀ l : List Char, noAdjB p l = true ↔
      List.Chain' (fun a b => (!(p a && p b)) = true) l := by
  intro l
  induction l with
  | nil => simp [noAdjB_nil]
  | cons c t ih =>
    cases t with
    | nil => simp [noAdjB_single]
    | cons d t' =>
      rw [noAdjB_cons2, List.chain'_cons, Bool.and_eq_true, ih]

theorem noAdjB_reverse (p : Char → Bool) (l : List Char) :
    noAdjB p l.reverse = noAdjB p l := by
  rw [Bool.eq_iff_iff, noAdjB_iff_chain, noAdjB_iff_chain, List.chain'_reverse]
  have hsym : ∀ a b : Char, (!(p a && p b)) = true → (!(p b && p a)) = true := by
    intro a b hab
    simpa [Bool.and_comm] using hab
  constructor
  · intro h
    exact h.imp (fun a b hab => hsym b a hab)
  · intro h
    exact h.imp (fun a b hab => hsym a b hab)

theorem squash_eq_self (p : Char → Bool) (r : Char) :
    ∀ l : List Char, noAdjB p l = true → (∀ c ∈ l, p c = true → c = r) →
      squashRuns p r l = l := by
  intro l
  induction l with
  | nil => intro _ _; rfl
  | cons c t ih =>
    cases t with
    | nil =>
      intro _ hrep
      rw [squashRuns_single]
      by_cases hc : p c = true
      · rw [if_pos hc, (hrep c (by simp) hc)]
      · rw [if_neg hc]
    | cons d t' =>
      intro hadj hrep
      rw [squashRuns_cons2]
      have hnd : (p c && p d) = false := by
        rw [noAdjB_cons2, Bool.and_eq_true] at hadj
        have := hadj.1
        rwa [Bool.not_eq_true'] at this
      rw [if_neg (by simp [hnd])]
      have hrec := ih (noAdjB_of_cons hadj)
        (fun x hx hpx => hrep x (List.mem_cons_of_mem c hx) hpx)
      rw [hrec]
      by_cases hc : p c = true
      · rw [if_pos hc, (hrep c (by simp) hc)]
      · rw [if_neg hc]

/-! ## Lemmas: stripping edge hyphens -/

theorem stripTrailHy_eq_nil {l : List Char} (hrev : l.reverse = []) :
    stripTrailHy l = l := by
  rw [stripTrailHy, hrev]

theorem stripTrailHy_eq_cons {l : List Char} {d : Char} {t : List Char}
    (hrev : l.reverse = d :: t) :
    stripTrailHy l = if (d == '-') = true then t.reverse else l := by
  rw [stripTrailHy, hrev]

theorem stripLeadHy_mem {c : Char} {l : List Char} (h : c ∈ stripLeadHy l) :
    c ∈ l := by
  cases l with
  | nil => simp [stripLeadHy] at h
  | cons d t =>
    by_cases hd : (d == '-') = true
    · rw [stripLeadHy, if_pos hd] at h
      exact List.mem_cons_of_mem d h
    · rwa [stripLeadHy, if_neg hd] at h

theorem stripTrailHy_mem {c : Char} {l : List Char} (h : c ∈ stripTrailHy l) :
    c ∈ l := by
  rcases hrev : l.reverse with _ | ⟨d, t⟩
  · rwa [stripTrailHy_eq_nil hrev] at h
  · by_cases hd : (d == '-') = true
    · rw [stripTrailHy_eq_cons hrev, if_pos hd] at h
      have : c ∈ d :: t := List.mem_cons_of_mem d (List.mem_reverse.mp h)
      rw [← hrev] at this
      exact List.mem_reverse.mp this
    · rwa [stripTrailHy_eq_cons hrev, if_neg hd] at h

theorem stripLeadHy_noAdj {p : Char → Bool} {l : List Char}
    (h : noAdjB p l = true) : noAdjB p (stripLeadHy l) = true := by
  cases l with
  | nil => rfl
  | cons d t =>
    by_cases hd : (d == '-') = true
    · rw [stripLeadHy, if_pos hd]
      exact noAdjB_of_cons h
    · rwa [stripLeadHy, if_neg hd]

theorem stripTrailHy_noAdj {l : List Char}
    (h : noAdjB isHyphen l = true) : noAdjB isHyphen (stripTrailHy l) = true := by
  rcases hrev : l.reverse with _ | ⟨d, t⟩
  · rwa [stripTrailHy_eq_nil hrev]
  · by_cases hd : (d == '-') = true
    · rw [stripTrailHy_eq_cons hrev, if_pos hd]
      rw [← noAdjB_reverse] at h
      rw [hrev] at h
      rw [noAdjB_reverse]
      exact noAdjB_of_cons h
    · rwa [stripTrailHy_eq_cons hrev, if_neg hd]

theorem stripLeadHy_head {l : List Char} (h : noAdjB isHyphen l = true) :
    headIsHy (stripLeadHy l) = false := by
  cases l with
  | nil => rfl
  | cons d t =>
    by_cases hd : (d == '-') = true
    · rw [stripLeadHy, if_pos hd]
      cases t with
      | nil => rfl
      | cons u t' =>
        rw [noAdjB_cons2, Bool.and_eq_true, Bool.not_eq_true'] at h
        have hu : isHyphen u = false := by
          rcases Bool.and_eq_false_iff.mp h.1 with h1 | h1
          · rw [isHyphen] at h1
            rw [h1] at hd
            exact absurd hd (by simp)
          · exact h1
        rw [headIsHy]
        rwa [isHyphen] at hu
    · rw [stripLeadHy, if_neg hd, headIsHy]
      simpa using hd

theorem stripTrailHy_head {l : List Char} (h : headIsHy l = false) :
    headIsHy (stripTrailHy l) = false := by
  rcases hrev : l.reverse with _ | ⟨d, t⟩
  · rwa [stripTrailHy_eq_nil hrev]
  · by_cases hd : (d == '-') = true
    · rw [stripTrailHy_eq_cons hrev, if_pos hd]
      have hl : l = t.reverse ++ [d] := by
        rw [← List.reverse_reverse l, hrev, List.reverse_cons]
      rcases ht : t.reverse with _ | ⟨a, t2⟩
      · rfl
      · rw [hl, ht] at h
        simpa [headIsHy] using h
    · rwa [stripTrailHy_eq_cons hrev, if_neg hd]

theorem stripTrailHy_last {l : List Char} (h : noAdjB isHyphen l = true) :
    lastIsHy (stripTrailHy l) = false := by
  rcases hrev : l.reverse with _ | ⟨d, t⟩
  · rw [stripTrailHy_eq_nil hrev, lastIsHy, hrev]
    rfl
  · by_cases hd : (d == '-') = true
    · rw [stripTrailHy_eq_cons hrev, if_pos hd]
      rw [lastIsHy, List.reverse_reverse]
      rw [← noAdjB_reverse, hrev] at h
      cases t with
      | nil => rfl
      | cons u t' =>
        rw [noAdjB_cons2, Bool.and_eq_true, Bool.not_eq_true'] at h
        have hu : isHyphen u = false := by
          rcases Bool.and_eq_false_iff.mp h.1 with h1 | h1
          · rw [isHyphen] at h1
            rw [h1] at hd
            exact absurd hd (by simp)
          · exact h1
        rw [headIsHy]
        rwa [isHyphen] at hu
    · rw [stripTrailHy_eq_cons hrev, if_neg hd, lastIsHy, hrev, headIsHy]
      simp
      simpa using hd

theorem stripEdge_mem {c : Char} {l : List Char} (h : c ∈ stripEdgeHyphens l) :
    c ∈ l := stripLeadHy_mem (stripTrailHy_mem h)

theorem stripEdge_noAdj {l : List Char} (h : noAdjB isHyphen l = true) :
    noAdjB isHyphen (stripEdgeHyphens l) = true :=
  stripTrailHy_noAdj (stripLeadHy_noAdj h)

theorem stripEdge_head {l : List Char} (h : noAdjB isHyphen l = true) :
    headIsHy (stripEdgeHyphens l) = false :=
  stripTrailHy_head (stripLeadHy_head h)

theorem stripEdge_last {l : List Char} (h : noAdjB isHyphen l = true) :
    lastIsHy (stripEdgeHyphens l) = false :=
  stripTrailHy_last (stripLeadHy_noAdj h)

/-! ## Lemmas: character classes -/

theorem classChar_toNat {c : Char} (h : classChar c = true) :
    c.toNat = 45 ∨ (48 ≤ c.toNat ∧ c.toNat ≤ 57) ∨
      (97 ≤ c.toNat ∧ c.toNat ≤ 122) := by
  rw [classChar, Bool.or_eq_true, Bool.or_eq_true] at h
  rcases h with (h | h) | h
  · rw [isLowerAlpha, Bool.and_eq_true] at h
    exact Or.inr (Or.inr ⟨by simpa using h.1, by simpa using h.2⟩)
  · rw [isDigitCh, Bool.and_eq_true] at h
    exact Or.inr (Or.inl ⟨by simpa using h.1, by simpa using h.2⟩)
  · rw [isHyphen, beq_iff_eq] at h
    subst h
    exact Or.inl rfl

theorem isJsWs_toNat {c : Char} (h : isJsWs c = true) :
    c.toNat = 32 ∨ c.toNat = 9 ∨ c.toNat = 10 ∨ c.toNat = 13 ∨
    c.toNat = 11 ∨ c.toNat = 12 ∨ c.toNat = 0xa0 ∨ c.toNat = 0x1680 ∨
    (0x2000 ≤ c.toNat ∧ c.toNat ≤ 0x200a) ∨ c.toNat = 0x2028 ∨
    c.toNat = 0x2029 ∨ c.toNat = 0x202f ∨ c.toNat = 0x205f ∨
    c.toNat = 0x3000 ∨ c.toNat = 0xfeff := by
  rw [isJsWs] at h
  simp only [Bool.or_eq_true, beq_iff_eq, Bool.and_eq_true, decide_eq_true_eq] at h
  rcases h with ((((((((((((((h | h) | h) | h) | h) | h) | h) | h) | h) | h) | h) | h) | h) | h) | h)
  all_goals first
    | (subst h; simp)
    | simp [h]

theorem classChar_not_ws {c : Char} (h : classChar c = true) :
    isJsWs c = false := by
  by_contra hw
  rw [Bool.not_eq_false] at hw
  rcases classChar_toNat h with h1 | h1 | h1 <;>
    rcases isJsWs_toNat hw with h2 | h2 | h2 | h2 | h2 | h2 | h2 | h2 | h2 | h2 | h2 | h2 | h2 | h2 | h2 <;>
    omega

theorem classChar_toLower {c : Char} (h : classChar c = true) :
    Char.toLower c = c := by
  rw [Char.toLower, if_neg]
  intro hc
  rcases classChar_toNat h with h1 | h1 | h1 <;> omega

theorem classChar_keep {c : Char} (h : classChar c = true) : keepChar c = true := by
  rw [classChar, Bool.or_eq_true, Bool.or_eq_true] at h
  rw [keepChar]
  rcases h with (h | h) | h <;> simp [h]

theorem keep_not_ws_class {c : Char} (hk : keepChar c = true)
    (hw : isJsWs c = false) : classChar c = true := by
  rw [keepChar, Bool.or_eq_true, Bool.or_eq_true, Bool.or_eq_true] at hk
  rw [classChar, Bool.or_eq_true, Bool.or_eq_true]
  rcases hk with ((h | h) | h) | h
  · exact Or.inl (Or.inl h)
  · exact Or.inl (Or.inr h)
  · rw [h] at hw
    exact absurd hw (by simp)
  · exact Or.inr h

theorem hyphen_class : classChar '-' = true := by decide

/-! ## Lemmas: identity of the pipeline on canonical slugs -/

theorem dropWhile_eq_self_of {p : Char → Bool} {l : List Char}
    (h : ∀ c ∈ l, p c = false) : l.dropWhile p = l := by
  cases l with
  | nil => rfl
  | cons c t =>
    rw [List.dropWhile_cons, if_neg]
    rw [h c (by simp)]
    simp

theorem jsTrim_eq_self {l : List Char} (h : ∀ c ∈ l, isJsWs c = false) :
    jsTrim l = l := by
  rw [jsTrim, dropWhile_eq_self_of h, dropWhile_eq_self_of, List.reverse_reverse]
  intro c hc
  exact h c (List.mem_reverse.mp hc)

theorem map_toLower_eq_self {l : List Char} (h : ∀ c ∈ l, classChar c = true) :
    l.map Char.toLower = l := by
  induction l with
  | nil => rfl
  | cons c t ih =>
    rw [List.map_cons, classChar_toLower (h c (by simp)),
      ih (fun x hx => h x (List.mem_cons_of_mem c hx))]

theorem squashWs_eq_self {l : List Char} (h : ∀ c ∈ l, isJsWs c = false) :
    squashRuns isJsWs '-' l = l := by
  apply squash_eq_self
  · induction l with
    | nil => rfl
    | cons c t ih =>
      cases t with
      | nil => rfl
      | cons d t' =>
        rw [noAdjB_cons2, Bool.and_eq_true]
        refine ⟨?_, ih (fun x hx => h x (List.mem_cons_of_mem c hx))⟩
        rw [h c (by simp)]
        simp
  · intro c hc hpc
    rw [h c hc] at hpc
    exact absurd hpc (by simp)

theorem squashHy_eq_self {l : List Char} (h : noAdjB isHyphen l = true) :
    squashRuns isHyphen '-' l = l := by
  apply squash_eq_self _ _ _ h
  intro c _ hpc
  rw [isHyphen, beq_iff_eq] at hpc
  exact hpc

theorem stripLeadHy_eq_self {l : List Char} (h : headIsHy l = false) :
    stripLeadHy l = l := by
  cases l with
  | nil => rfl
  | cons c t =>
    rw [headIsHy] at h
    rw [stripLeadHy, if_neg]
    simp [h]

theorem stripTrailHy_eq_self {l : List Char} (h : lastIsHy l = false) :
    stripTrailHy l = l := by
  rcases hrev : l.reverse with _ | ⟨d, t⟩
  · exact stripTrailHy_eq_nil hrev
  · rw [lastIsHy, hrev, headIsHy] at h
    rw [stripTrailHy_eq_cons hrev, if_neg]
    simp [h]

theorem stripEdge_eq_self {l : List Char} (h1 : headIsHy l = false)
    (h2 : lastIsHy l = false) : stripEdgeHyphens l = l := by
  rw [stripEdgeHyphens, stripLeadHy_eq_self h1, stripTrailHy_eq_self h2]

/-! ## Lemmas: the two hyphen-collapsing routes agree -/

theorem isHyphen_wsToHyphen (c : Char) : isHyphen (wsToHyphen c) = isWsHy c := by
  by_cases h : isJsWs c = true
  · simp [wsToHyphen, isHyphen, isWsHy, h]
  · simp only [Bool.not_eq_true] at h
    simp [wsToHyphen, isHyphen, isWsHy, h]

theorem ite_wsHy_wth (c : Char) :
    (if isWsHy c then '-' else wsToHyphen c) = (if isWsHy c then '-' else c) := by
  by_cases h : isWsHy c = true
  · simp [h]
  · simp only [Bool.not_eq_true] at h
    have hw : isJsWs c = false := by
      rw [isWsHy, Bool.or_eq_false_iff] at h
      exact h.1
    simp [h, wsToHyphen, hw]

theorem ite_wsToHyphen (c : Char) :
    (if isHyphen (wsToHyphen c) then '-' else wsToHyphen c) =
      (if isWsHy c then '-' else c) := by
  rw [isHyphen_wsToHyphen]
  by_cases h : isWsHy c = true
  · simp [h]
  · simp only [Bool.not_eq_true] at h
    have hw : isJsWs c = false := by
      rw [isWsHy, Bool.or_eq_false_iff] at h
      exact h.1
    simp [h, wsToHyphen, hw]

theorem squash_map_wsToHy (l : List Char) :
    squashRuns isHyphen '-' (l.map wsToHyphen) = squashRuns isWsHy '-' l := by
  induction l with
  | nil => rfl
  | cons c t ih =>
    cases t with
    | nil =>
      rw [List.map_cons, List.map_nil, squashRuns_single, squashRuns_single,
        ite_wsToHyphen]
    | cons d t' =>
      rw [List.map_cons, List.map_cons, squashRuns_cons2, squashRuns_cons2,
        isHyphen_wsToHyphen, isHyphen_wsToHyphen, ite_wsHy_wth]
      rw [show (wsToHyphen d :: List.map wsToHyphen t') =
        List.map wsToHyphen (d :: t') from rfl, ih]

theorem isHyphen_ws_ite (c : Char) :
    isHyphen (if isJsWs c then '-' else c) = isWsHy c := by
  by_cases h : isJsWs c = true
  · simp [isHyphen, isWsHy, h]
  · simp only [Bool.not_eq_true] at h
    simp [isHyphen, isWsHy, h]

theorem ite_ws_ite (c : Char) :
    (if isHyphen (if isJsWs c then '-' else c) then '-'
      else if isJsWs c then '-' else c) = (if isWsHy c then '-' else c) := by
  rw [isHyphen_ws_ite]
  by_cases h : isWsHy c = true
  · simp [h]
  · simp only [Bool.not_eq_true] at h
    have hw : isJsWs c = false := by
      rw [isWsHy, Bool.or_eq_false_iff] at h
      exact h.1
    simp [h, hw]

theorem ite_wsHy_ws (c : Char) :
    (if isWsHy c then '-' else if isJsWs c then '-' else c) =
      (if isWsHy c then '-' else c) := by
  by_cases h : isWsHy c = true
  · simp [h]
  · simp only [Bool.not_eq_true] at h
    have hw : isJsWs c = false := by
      rw [isWsHy, Bool.or_eq_false_iff] at h
      exact h.1
    simp [h, hw]

theorem squash_squash (l : List Char) :
    squashRuns isHyphen '-' (squashRuns isJsWs '-' l) = squashRuns isWsHy '-' l := by
  induction l with
  | nil => rfl
  | cons c t ih =>
    cases t with
    | nil =>
      rw [squashRuns_single, squashRuns_single, squashRuns_single, ite_ws_ite]
    | cons d t' =>
      rw [squashRuns_cons2 isJsWs '-' c d t', squashRuns_cons2 isWsHy '-' c d t']
      by_cases hws : (isJsWs c && isJsWs d) = true
      · rw [if_pos hws, ih]
        rw [Bool.and_eq_true] at hws
        have : (isWsHy c && isWsHy d) = true := by
          rw [isWsHy, isWsHy, hws.1, hws.2]
          simp
        rw [if_pos this]
      · rw [if_neg hws]
        obtain ⟨rest, hrest⟩ := squash_head isJsWs '-' d t'
        rw [hrest]
        rw [hrest] at ih
        rw [squashRuns_cons2]
        rw [show isHyphen (if isJsWs c then '-' else c) = isWsHy c from isHyphen_ws_ite c]
        rw [show isHyphen (if isJsWs d then '-' else d) = isWsHy d from isHyphen_ws_ite d]
        rw [ih, ite_wsHy_ws]

theorem generateSlug_eq_spec (title : String) :
    generateSlug title = slugSpecSteps title := by
  rw [generateSlug, slugSpecSteps]
  rw [squash_squash, squash_map_wsToHy]

/-! ## Main slug lemmas -/

theorem generateSlug_canon (t : String) : isCanonSlug (generateSlug t) = true := by
  have hg : generateSlug t = String.mk (stripEdgeHyphens (squashRuns isHyphen '-'
      (squashRuns isJsWs '-' ((jsTrim (t.data.map Char.toLower)).filter keepChar)))) := rfl
  rw [hg, isCanonSlug]
  set l3 := (jsTrim (t.data.map Char.toLower)).filter keepChar with hl3
  set l4 := squashRuns isJsWs '-' l3 with hl4
  set l5 := squashRuns isHyphen '-' l4 with hl5
  have hclass : ∀ c ∈ l5, classChar c = true := by
    intro c hc
    rcases squash_mem hc with rfl | ⟨h4, _⟩
    · exact hyphen_class
    · rcases squash_mem h4 with rfl | ⟨h3, hnw⟩
      · exact hyphen_class
      · exact keep_not_ws_class (List.mem_filter.mp h3).2 hnw
  have hadj : noAdjB isHyphen l5 = true := squash_noAdj isHyphen '-' (by decide) l4
  simp only [Bool.and_eq_true, Bool.not_eq_true']
  refine ⟨⟨⟨?_, ?_⟩, ?_⟩, ?_⟩
  · rw [List.all_eq_true]
    intro c hc
    exact hclass c (stripEdge_mem hc)
  · exact stripEdge_noAdj hadj
  · exact stripEdge_head hadj
  · exact stripEdge_last hadj

theorem generateSlug_idem {s : String} (h : isCanonSlug s = true) :
    generateSlug s = s := by
  rw [isCanonSlug] at h
  simp only [Bool.and_eq_true, Bool.not_eq_true'] at h
  obtain ⟨⟨⟨hall, hadj⟩, hhead⟩, hlast⟩ := h
  rw [List.all_eq_true] at hall
  have hg : generateSlug s = String.mk (stripEdgeHyphens (squashRuns isHyphen '-'
      (squashRuns isJsWs '-' ((jsTrim (s.data.map Char.toLower)).filter keepChar)))) := rfl
  have hnws : ∀ c ∈ s.data, isJsWs c = false := fun c hc => classChar_not_ws (hall c hc)
  rw [hg, map_toLower_eq_self hall, jsTrim_eq_self hnws,
    List.filter_eq_self.mpr (fun c hc => classChar_keep (hall c hc)),
    squashWs_eq_self hnws, squashHy_eq_self hadj, stripEdge_eq_self hhead hlast]

/-! ## Claim theorems -/

/-- C1: the specification states the time normalizer converts an AM/PM suffix
to 24-hour form and returns zero-padded `HH:MM` ("2:30 PM" to "14:30",
"12:00 AM" to "00:00", "12:00 PM" to "12:00", "23:59" to "23:59"). The code
does not: its regex has only two capture groups, yet it reads `match[2]` as
the minutes and `match[4]` as the AM/PM period, so the conversion never runs
and the returned string interpolates the AM/PM suffix (or `undefined`) where
the minutes belong. This theorem evaluates the translated code at the
specification's own example inputs. -/
theorem C1_time_normalizer_diverges :
    normalizeTime "2:30 PM" = .ok "02:PM" ∧
    normalizeTime "12:00 AM" = .ok "12:AM" ∧
    normalizeTime "12:00 PM" = .ok "12:PM" ∧
    normalizeTime "23:59" = .ok "23:undefined" :=
  ⟨rfl, rfl, rfl, rfl⟩

/-- C2: the specification states the time normalizer rejects non-matching
shapes with an invalid-format error (true: "9:5"), and rejects matching
inputs whose post-conversion hour is outside 0-23 or minutes outside 0-59
with "Time must be between 00:00 and 23:59". The hour part of the range check
works on the raw hour ("25:00" is rejected), but the minutes check compares
`parseInt` of the AM/PM capture (NaN), so out-of-range minutes are accepted
("10:99"), and since the AM/PM conversion never runs, "13:00 PM" (whose
post-conversion hour would be 25) is accepted as well. -/
theorem C2_time_validation_diverges :
    normalizeTime "9:5" =
      .error "Invalid time format, expected HH:MM with optional AM/PM" ∧
    normalizeTime "25:00" = .error "Time must be between 00:00 and 23:59" ∧
    normalizeTime "10:99" = .ok "10:undefined" ∧
    normalizeTime "13:00 PM" = .ok "13:PM" :=
  ⟨rfl, rfl, rfl, rfl⟩

/-- C3: the date normalizer returns the date portion of the parsed instant's
UTC ISO representation when the string parses, and fails with
"Invalid date format" when it does not; the specification's four examples
behave as stated (with the `new Date` runtime builtin modelled for the
exercised formats, in a UTC environment). -/
theorem C3_date_normalizer :
    (∀ s, jsDateParse s = none →
      normalizeDate s = .error "Invalid date format") ∧
    (∀ s d, jsDateParse s = some d →
      normalizeDate s = .ok (isoDateString d)) ∧
    normalizeDate "2024-03-05" = .ok "2024-03-05" ∧
    normalizeDate "March 5, 2024" = .ok "2024-03-05" ∧
    normalizeDate "2024-03-05T10:00:00Z" = .ok "2024-03-05" ∧
    normalizeDate "not-a-date" = .error "Invalid date format" := by
  refine ⟨?_, ?_, rfl, rfl, rfl, rfl⟩
  · intro s h
    simp only [normalizeDate, h]
  · intro s d h
    simp only [normalizeDate, h]

/-- Witness for C3 at concrete inputs. -/
theorem C3_date_normalizer_witness :
    (jsDateParse "not-a-date" = none ∧
      normalizeDate "not-a-date" = .error "Invalid date format") ∧
    (jsDateParse "2024-03-05" = some ⟨2024, 3, 5⟩ ∧
      normalizeDate "2024-03-05" = .ok (isoDateString ⟨2024, 3, 5⟩)) :=
  ⟨⟨by decide, C3_date_normalizer.1 "not-a-date" (by decide)⟩,
   ⟨by decide, C3_date_normalizer.2.1 "2024-03-05" ⟨2024, 3, 5⟩ (by decide)⟩⟩

/-- C4: the slug generator agrees, on every title, with the specification's
described pipeline (lowercase, trim, remove characters outside
`[a-z0-9\s-]`, whitespace runs to single hyphens, hyphen runs collapsed,
edge hyphens stripped); in particular a saved Event titled
"Hello, World! 2024" gets slug "hello-world-2024". -/
theorem C4_slug_contract :
    (∀ title, generateSlug title = slugSpecSteps title) ∧
    generateSlug "Hello, World! 2024" = "hello-world-2024" ∧
    saveResultSlug (saveNewEvent helloEventDoc) = some "hello-world-2024" :=
  ⟨generateSlug_eq_spec, by decide, by decide⟩

/-- C5: the slug generator always produces a canonical slug (characters in
`[a-z0-9-]` only, no leading/trailing hyphen, no adjacent hyphens) and is
idempotent: it returns an already-canonical slug unchanged. -/
theorem C5_slug_canonical_idempotent :
    (∀ t, isCanonSlug (generateSlug t) = true) ∧
    (∀ s, isCanonSlug s = true → generateSlug s = s) :=
  ⟨generateSlug_canon, fun _ h => generateSlug_idem h⟩

/-- Witness for C5 at a concrete canonical slug. -/
theorem C5_slug_canonical_idempotent_witness :
    isCanonSlug "hello-world-2024" = true ∧
    generateSlug "hello-world-2024" = "hello-world-2024" :=
  ⟨by decide, C5_slug_canonical_idempotent.2 "hello-world-2024" (by decide)⟩

/-- C6: the Booking pre-write hook looks the Event up only when `eventId` is
set or changed (otherwise the write proceeds whatever the store holds); a
missing Event fails the write with a ValidationError naming the identifier; a
throwing lookup fails it with a distinct ValidationError message. -/
theorem C6_booking_integrity :
    ∀ (lookup : String → LookupResult) (eid : String),
      bookingPreSave lookup false eid = .ok () ∧
      (lookup eid = .found → bookingPreSave lookup true eid = .ok ()) ∧
      (lookup eid = .notFound → bookingPreSave lookup true eid =
        .error ⟨"ValidationError", eventMissingMsg eid⟩) ∧
      (lookup eid = .threw → bookingPreSave lookup true eid =
        .error ⟨"ValidationError", lookupFailedMsg⟩) ∧
      eventMissingMsg eid ≠ lookupFailedMsg := by
  intro lookup eid
  refine ⟨rfl, ?_, ?_, ?_, ?_⟩
  · intro h
    simp [bookingPreSave, h]
  · intro h
    simp [bookingPreSave, h]
  · intro h
    simp [bookingPreSave, h]
  · intro hcontra
    have h1 : (eventMissingMsg eid).data.head? = some 'E' := rfl
    rw [hcontra] at h1
    exact absurd h1 (by decide)

/-- Witness for C6 with concrete lookup outcomes. -/
theorem C6_booking_integrity_witness :
    bookingPreSave (fun _ => .found) true "abc" = .ok () ∧
    bookingPreSave (fun _ => .notFound) true "abc" =
      .error ⟨"ValidationError", eventMissingMsg "abc"⟩ ∧
    bookingPreSave (fun _ => .threw) true "abc" =
      .error ⟨"ValidationError", lookupFailedMsg⟩ :=
  ⟨(C6_booking_integrity (fun _ => .found) "abc").2.1 rfl,
   (C6_booking_integrity (fun _ => .notFound) "abc").2.2.1 rfl,
   (C6_booking_integrity (fun _ => .threw) "abc").2.2.2.1 rfl⟩

/-- C7: the similar-events query never propagates a failure: when the source
event cannot be resolved (connect failure, a throwing query, or no event with
the slug) it returns the empty list. -/
theorem C7_similar_events_degrade :
    ∀ (db : Db) (slug : String),
      (db.connectOk = false → getSimilarEventsBySlug db slug = []) ∧
      (db.findOneOk = false → getSimilarEventsBySlug db slug = []) ∧
      (db.findOk = false → getSimilarEventsBySlug db slug = []) ∧
      (mongoFindOneBySlug db.events slug = none →
        getSimilarEventsBySlug db slug = []) := by
  intro db slug
  refine ⟨?_, ?_, ?_, ?_⟩ <;> intro h
  · simp [getSimilarEventsBySlug, getSimilarBody, h]
  · cases hc : db.connectOk <;>
      simp [getSimilarEventsBySlug, getSimilarBody, h, hc]
  · cases hc : db.connectOk <;>
      cases hfo : db.findOneOk <;>
      rcases hfind : mongoFindOneBySlug db.events slug with _ | e <;>
      simp [getSimilarEventsBySlug, getSimilarBody, h, hc, hfo, hfind]
  · cases hc : db.connectOk <;>
      cases hfo : db.findOneOk <;>
      simp [getSimilarEventsBySlug, getSimilarBody, h, hc, hfo]

/-- Witness for C7: each failure mode on concrete states. -/
theorem C7_similar_events_degrade_witness :
    getSimilarEventsBySlug ⟨false, true, true, []⟩ "x" = [] ∧
    getSimilarEventsBySlug ⟨true, false, true, []⟩ "x" = [] ∧
    getSimilarEventsBySlug ⟨true, true, false,
      [⟨1, "x", ["t"]⟩, ⟨2, "y", ["t"]⟩]⟩ "x" = [] ∧
    getSimilarEventsBySlug ⟨true, true, true, []⟩ "x" = [] :=
  ⟨(C7_similar_events_degrade ⟨false, true, true, []⟩ "x").1 rfl,
   (C7_similar_events_degrade ⟨true, false, true, []⟩ "x").2.1 rfl,
   (C7_similar_events_degrade ⟨true, true, false,
     [⟨1, "x", ["t"]⟩, ⟨2, "y", ["t"]⟩]⟩ "x").2.2.1 rfl,
   (C7_similar_events_degrade ⟨true, true, true, []⟩ "x").2.2.2 (by decide)⟩

/-- C8: when the slug resolves to a source event and the storage calls
succeed, the result contains exactly the stored events with a different `_id`
sharing at least one tag with the source, and never the source itself. -/
theorem C8_similar_events_exact :
    ∀ (db : Db) (slug : String) (src : StoredEvent),
      db.connectOk = true → db.findOneOk = true → db.findOk = true →
      mongoFindOneBySlug db.events slug = some src →
      (∀ x, x ∈ getSimilarEventsBySlug db slug ↔
        (x ∈ db.events ∧ x.id ≠ src.id ∧ ∃ t, t ∈ x.tags ∧ t ∈ src.tags)) ∧
      src ∉ getSimilarEventsBySlug db slug := by
  intro db slug src hc hfo hf hfind
  have hres : getSimilarEventsBySlug db slug = similarQuery db.events src := by
    simp [getSimilarEventsBySlug, getSimilarBody, hc, hfo, hf, hfind]
  have hiff : ∀ x, x ∈ getSimilarEventsBySlug db slug ↔
      (x ∈ db.events ∧ x.id ≠ src.id ∧ ∃ t, t ∈ x.tags ∧ t ∈ src.tags) := by
    intro x
    rw [hres, similarQuery, List.mem_filter]
    constructor
    · rintro ⟨hx, hp⟩
      rw [Bool.and_eq_true] at hp
      refine ⟨hx, bne_iff_ne.mp hp.1, ?_⟩
      rw [tagsMatchIn, List.any_eq_true] at hp
      obtain ⟨t, ht, hcont⟩ := hp.2
      exact ⟨t, ht, List.elem_iff.mp hcont⟩
    · rintro ⟨hx, hid, t, ht, hmem⟩
      refine ⟨hx, ?_⟩
      rw [Bool.and_eq_true]
      refine ⟨bne_iff_ne.mpr hid, ?_⟩
      rw [tagsMatchIn, List.any_eq_true]
      exact ⟨t, ht, List.elem_iff.mpr hmem⟩
  exact ⟨hiff, fun hm => ((hiff src).mp hm).2.1 rfl⟩

/-- Witness for C8: the source event of a concrete store is excluded. -/
theorem C8_similar_events_exact_witness :
    (⟨1, "a", ["x", "y"]⟩ : StoredEvent) ∉ getSimilarEventsBySlug
      ⟨true, true, true,
        [⟨1, "a", ["x", "y"]⟩, ⟨2, "b", ["y"]⟩, ⟨3, "c", ["z"]⟩]⟩ "a" :=
  (C8_similar_events_exact
    ⟨true, true, true, [⟨1, "a", ["x", "y"]⟩, ⟨2, "b", ["y"]⟩, ⟨3, "c", ["z"]⟩]⟩
    "a" ⟨1, "a", ["x", "y"]⟩ rfl rfl rfl (by decide)).2

/-- C9: the GET /events/{slug} handler rejects a missing or blank slug with
400, looks events up by the trimmed lowercased slug and distinguishes 404
(no match) from 500 (thrown failure), with a distinguished 500 message when
the thrown error mentions the connection configuration (`MONGODB_URI`). -/
theorem C9_get_event_handler :
    ∀ db : ApiDb,
      (db.connectError = none →
        getEventBySlug db none = ⟨400, "Invalid or missing slug parameter"⟩) ∧
      (∀ s, db.connectError = none → (jsTrim s.data).isEmpty = true →
        getEventBySlug db (some s) =
          ⟨400, "Invalid or missing slug parameter"⟩) ∧
      (∀ s, db.connectError = none → db.findError = none →
        (jsTrim s.data).isEmpty = false →
        getEventBySlug db (some s) =
          (match mongoFindOneBySlug db.events
              (String.mk ((jsTrim s.data).map Char.toLower)) with
            | none => ⟨404, "Event not found"⟩
            | some _ => ⟨200, "Event fetched successfully"⟩)) ∧
      (∀ slug m, db.connectError = some m →
        hasSub "MONGODB_URI".data m.data = true →
        getEventBySlug db slug = ⟨500, "Database connection error"⟩) ∧
      (∀ s m, db.connectError = none → db.findError = some m →
        (jsTrim s.data).isEmpty = false →
        hasSub "MONGODB_URI".data m.data = false →
        getEventBySlug db (some s) = ⟨500, "Event fetching failed"⟩) := by
  intro db
  refine ⟨?_, ?_, ?_, ?_, ?_⟩
  · intro h
    simp [getEventBySlug, h]
  · intro s h hb
    simp [getEventBySlug, h, hb]
  · intro s h hf hb
    simp [getEventBySlug, h, hf, hb]
  · intro slug m h hm
    cases slug <;> simp [getEventBySlug, getCatch, h, hm]
  · intro s m h hf hb hm
    simp [getEventBySlug, getCatch, h, hf, hb, hm]

/-- Witness for C9: all five outcomes on concrete requests. -/
theorem C9_get_event_handler_witness :
    getEventBySlug ⟨none, none, []⟩ none =
      ⟨400, "Invalid or missing slug parameter"⟩ ∧
    getEventBySlug ⟨none, none, []⟩ (some " ") =
      ⟨400, "Invalid or missing slug parameter"⟩ ∧
    getEventBySlug ⟨none, none, []⟩ (some " NoPe ") = ⟨404, "Event not found"⟩ ∧
    getEventBySlug ⟨some "MONGODB_URI is not defined", none, []⟩ (some "a") =
      ⟨500, "Database connection error"⟩ ∧
    getEventBySlug ⟨none, some "boom", []⟩ (some "a") =
      ⟨500, "Event fetching failed"⟩ := by
  refine ⟨(C9_get_event_handler _).1 rfl,
    (C9_get_event_handler _).2.1 " " rfl (by decide), ?_,
    (C9_get_event_handler _).2.2.2.1 (some "a") "MONGODB_URI is not defined"
      rfl (by decide),
    (C9_get_event_handler _).2.2.2.2 "a" "boom" rfl rfl (by decide) (by decide)⟩
  · have h := (C9_get_event_handler ⟨none, none, []⟩).2.2.1 " NoPe " rfl rfl
      (by decide)
    simpa using h

/-- C10: a title with no alphanumeric characters ("!!!") passes Event field
validation (it is non-empty and short enough), the slug generator maps it to
the empty string, and since the slug field carries no constraint the document
is saved with an empty slug. -/
theorem C10_empty_slug_saved :
    generateSlug "!!!" = "" ∧ validateEvent bangEventDoc = [] ∧
    saveResultSlug (saveNewEvent bangEventDoc) = some "" :=
  ⟨by decide, by decide, by decide⟩

end NextEvents
